import Mathlib

/-!
# cppincludeclean: a shallow embedding of `src/cppincludeclean.cc`

The tool comments out `#include` lines one at a time, asks an external command
whether the file still builds, and keeps the comment only when the command
exits with status 0.

Modelling conventions

* A `char` of the source is a Lean `Char`; a `std::string` is a `List Char`.
  The code only ever inspects the characters tested by `isspace`, the
  characters `#`, newline, NUL and those of the words `include` and `// `.
* The file system is a map from paths to contents.  `fopen(path, "r")` fails
  exactly on a path that holds no file.  `fopen(path, "w")` creates or
  truncates the file and `fwrite` writes all it is given (the only caller of
  `putFileByLines`, `File::writeOut`, throws its return value away).
* `spawn` (fork, exec, wait) is a parameter: a function from the argument
  vector and the file system the child sees to the status that is returned.
  The child is taken not to write to the file system.
* Each call of `spawn` is recorded in a log (a ghost component) so that what
  the child has seen can be stated.
* Option parsing, the help text, the verbose output, the signal handlers and
  the failure to open `/dev/null` are outside the model: `main` starts from the
  paths that `parseOptions` leaves, and a signal is a teardown (`File.destroy`)
  from the state at hand.
-/

namespace CppIncludeClean

/-! ## Data model -/

/-- One element of the `vector<string>` of a `File`. -/
abbrev Line := List Char

/-- A file name as passed on the command line. -/
abbrev Path := String

/-- The file system: the content of every path that holds a file. -/
abbrev FS := Path → Option (List Char)

/-- The C library `isspace` in the "C" locale. -/
def isspace (c : Char) : Bool :=
  c == ' ' || c == '\t' || c == '\n' || c == '\x0b' || c == '\x0c' || c == '\r'

/-- The `std::string` built from a `char*` buffer: the characters before the
first NUL (`res.push_back(buff)`). -/
def cstring (buff : List Char) : Line :=
  buff.takeWhile (fun c => c != '\x00')

/-- The loop `while ((read = getline(&buff, &n, f)) != -1) res.push_back(buff)`
of `getFileByLines` on the stream that is still unread.  `buff` holds what
`getline` has read of the current line so far.  `getline` stops after a newline
or at the end of the stream, and reports -1 when it has read nothing.  With
`flags = 0` (the default used by `File::File`) the newline is kept, and the
default range `[0, size_t(-1))` admits every line. -/
def getlines (buff : List Char) : List Char → List Line
  | [] => if buff.isEmpty then [] else [cstring buff]
  | c :: cs =>
    if c = '\n' then cstring (buff ++ [c]) :: getlines [] cs
    else getlines (buff ++ [c]) cs

/-- The function `getFileByLines(file)`: the empty vector when the file cannot
be opened. -/
def getFileByLines (fs : FS) (file : Path) : List Line :=
  match fs file with
  | none => []
  | some content => getlines [] content

/-- The function `putFileByLines(file, lines)`: the file is opened with mode
"w" and the characters of every line are written one after the other. -/
def putFileByLines (fs : FS) (file : Path) (lines : List Line) : FS :=
  fun p => if p = file then some lines.flatten else fs p

/-- The string literal `"// "` of `toggleCommentOnLine`. -/
def commentMark : List Char := ['/', '/', ' ']

/-- The class `File`; the iterator `line_` is the index of the line it points to. -/
structure File where
  file : List Line
  line_ : Nat
  fname : Path
  tmp : Line
  ok : Bool

/-- The constructor `File::File(filename)`. -/
def File.new (fs : FS) (filename : Path) : File :=
  { file := getFileByLines fs filename, line_ := 0, fname := filename, tmp := [], ok := true }

/-- The text `*line_`.  Dereferencing `end()` is undefined in the source; the
driver never does it, and the model reads the empty string there. -/
def File.cur (f : File) : Line := f.file.getD f.line_ []

/-- The method `File::next`. -/
def File.next (f : File) : File :=
  { f with ok := true, line_ := f.line_ + 1 }

/-- The method `File::writeOut`. -/
def File.writeOut (f : File) (fs : FS) : FS :=
  putFileByLines fs f.fname f.file

/-- The statement `line_->swap(tmp)`. -/
def File.swapTmp (f : File) : File :=
  { f with file := f.file.set f.line_ f.tmp, tmp := f.cur }

/-- The method `File::toggleCommentOnLine`: with `ok` set the line is replaced by
its commented form and the file is written; otherwise the line is swapped back
and nothing is written. -/
def File.toggleCommentOnLine (f : File) (fs : FS) : File × FS :=
  if f.ok then
    let f1 := { f with tmp := commentMark ++ f.cur }
    let f2 := { f1.swapTmp with ok := false }
    (f2, f2.writeOut fs)
  else
    ({ f.swapTmp with ok := true }, fs)

/-- The buffer that the destructor writes: `if (!ok) line_->swap(tmp)`. -/
def File.restore (f : File) : File :=
  if f.ok then f else f.swapTmp

/-- The destructor `File::~File`. -/
def File.destroy (f : File) (fs : FS) : FS :=
  f.restore.writeOut fs

/-! ## The driver -/

/-- The algorithm `std::equal(first1, last1, first2)`. -/
def equal : List Char → List Char → Bool
  | [], _ => true
  | _ :: _, [] => false
  | a :: as, b :: bs => a == b && equal as bs

/-- The test of `main` that decides whether the line under the cursor is tried:
skip white space, require `#`, skip white space, then
`equal(it, min(it + 7, end), "include")`.  At the end of the string `*it` is
the terminating NUL, which is not `#`. -/
def isInclude (l : Line) : Bool :=
  match l.dropWhile isspace with
  | [] => false
  | c :: rest =>
    if c != '#' then false
    else equal ((rest.dropWhile isspace).take 7) "include".toList

/-- The globals `compiler` and `command`. -/
structure Config where
  compiler : String
  command : String

/-- The array `args` handed to `spawn`; `args[0]` is also the program. -/
def spawnArgs (cfg : Config) (path : Path) : List String :=
  if cfg.command.length ≠ 0 then ["sh", "-c", cfg.command]
  else [cfg.compiler, "-c", path]

/-- The function `spawn` seen from `main`: the status of the child, or -1. -/
abbrev Spawn := List String → FS → Int

/-- One call of `spawn`: the file being processed, the index of the line
under test, the content of the file on disk when the child runs, and the
status. -/
structure Call where
  fname : Path
  index : Nat
  disk : Option (List Char)
  status : Int
deriving DecidableEq

/-- The body of the inner `for` loop of `main`, without the `file->next()`. -/
def body (cfg : Config) (spawn : Spawn) (f : File) (fs : FS) (log : List Call) :
    File × FS × List Call :=
  if isInclude f.cur then
    let t := f.toggleCommentOnLine fs
    let status := spawn (spawnArgs cfg f.fname) t.2
    let log1 := log ++ [{ fname := f.fname, index := f.line_, disk := t.2 f.fname, status := status }]
    if status ≠ 0 then
      let u := t.1.toggleCommentOnLine t.2
      (u.1, u.2, log1)
    else (t.1, t.2, log1)
  else (f, fs, log)

/-- The inner loop `for (; file->line() != file->end(); file->next())`, run for
at most `fuel` passes. -/
def lineLoop (cfg : Config) (spawn : Spawn) : Nat → File → FS → List Call → File × FS × List Call
  | 0, f, fs, log => (f, fs, log)
  | fuel + 1, f, fs, log =>
    if f.line_ ≠ f.file.length then
      let r := body cfg spawn f fs log
      lineLoop cfg spawn fuel r.1.next r.2.1 r.2.2
    else (f, fs, log)

/-- The inner loop from a cursor inside the buffer: every pass moves the cursor
one line on, so `length - line_` passes reach the end (see
`lineLoop_reaches_end`). -/
def processLines (cfg : Config) (spawn : Spawn) (f : File) (fs : FS) (log : List Call) :
    File × FS × List Call :=
  lineLoop cfg spawn (f.file.length - f.line_) f fs log

/-- The outer loop of `main` over the paths, with the global `UniquePtr<File> file`
(`none` is the null pointer).  In `file.reset(new File(argv[i]))` the new
`File` is constructed first; `reset` then deletes the previous one. -/
def pathLoop (cfg : Config) (spawn : Spawn) :
    List Path → Option File → FS → List Call → Option File × FS × List Call
  | [], cur, fs, log => (cur, fs, log)
  | p :: ps, cur, fs, log =>
    let nf := File.new fs p
    let fs1 := match cur with
      | some old => old.destroy fs
      | none => fs
    let r := processLines cfg spawn nf fs1 log
    pathLoop cfg spawn ps (some r.1) r.2.1 r.2.2

/-- The function `main` on the paths left by `parseOptions`, up to the end of the
process: after `return 0` the global `file` is destroyed.  The result is the
file system and the log of the calls of `spawn`. -/
def main (cfg : Config) (spawn : Spawn) (paths : List Path) (fs : FS) : FS × List Call :=
  let r := pathLoop cfg spawn paths none fs []
  match r.1 with
  | some f => (f.destroy r.2.1, r.2.2)
  | none => (r.2.1, r.2.2)

/-! ## Concrete inputs -/

/-- A file system with one file. -/
def oneFile (path : Path) (content : String) : FS :=
  fun p => if p = path then some content.toList else none

/-- A configuration with compiler `c++` and no custom command. -/
def cfg0 : Config := { compiler := "c++", command := "" }

/-- A verification that always fails. -/
def alwaysFail : Spawn := fun _ _ => 1

/-- A verification that always succeeds. -/
def alwaysPass : Spawn := fun _ _ => 0

/-- Whether `needle` occurs in the text. -/
def containsSub (needle : List Char) : List Char → Bool
  | [] => needle.isEmpty
  | c :: cs => needle.isPrefixOf (c :: cs) || containsSub needle cs

/-- Whether a line is commented out with `//`. -/
def commentedOut (l : Line) : Bool :=
  "//".toList.isPrefixOf (l.dropWhile isspace)

/-- A verification command that is a fixed function `v` of the content of the
file `path` on disk (status -1 when there is no such file). -/
def contentSpawn (path : Path) (v : List Char → Int) : Spawn := fun _ fs =>
  match fs path with
  | none => -1
  | some c => v c

/-- Status 0 exactly when no line of the content contains `name` without being
commented out. -/
def uncommentedStatus (name : String) (c : List Char) : Int :=
  if (getlines [] c).any (fun l => containsSub name.toList l && !commentedOut l) then 1 else 0

/-- The verification of the scenario: status 0 exactly when no line of the
file on disk contains `name` without being commented out. -/
def noUncommented (name : String) (path : Path) : Spawn :=
  contentSpawn path (uncommentedStatus name)

/-- The input file of the scenario. -/
def scenarioFS : FS := oneFile "t.cc" "#include <a.h>\nint x;\n#include <b.h>\n"

/-- The states of a session on `path` that the operations of the driver reach
from the freshly opened session: disabling the line under the cursor
(`toggleCommentOnLine` with `ok` set), rolling it back (`toggleCommentOnLine`
with `ok` clear), and `next` while the cursor is inside the buffer. -/
inductive Reach (fs0 : FS) (path : Path) : File → FS → Prop
  | opened : Reach fs0 path (File.new fs0 path) fs0
  | disable {f : File} {fs : FS} : Reach fs0 path f fs → f.ok = true →
      f.line_ < f.file.length →
      Reach fs0 path (f.toggleCommentOnLine fs).1 (f.toggleCommentOnLine fs).2
  | rollback {f : File} {fs : FS} : Reach fs0 path f fs → f.ok = false →
      Reach fs0 path (f.toggleCommentOnLine fs).1 (f.toggleCommentOnLine fs).2
  | next {f : File} {fs : FS} : Reach fs0 path f fs → f.line_ < f.file.length →
      Reach fs0 path f.next fs

/-- What holds of every reachable state of a session opened on a file that is
read without loss. -/
def SessionInv (path : Path) (f : File) (fs : FS) : Prop :=
  f.fname = path ∧
    (f.ok = false → f.line_ < f.file.length ∧ f.cur = commentMark ++ f.tmp ∧
      fs path = some f.file.flatten) ∧
    (f.ok = true → fs path = some f.file.flatten ∨
      ∃ i, i ≤ f.line_ ∧ i < f.file.length ∧
        fs path = some (f.file.set i (commentMark ++ f.file.getD i [])).flatten)

/-- A file with one `#include` line. -/
def oneInclude : FS := oneFile "t.cc" "#include <a.h>\n"

/-- The session on `oneInclude` after its line was disabled and rolled back. -/
def rolledBack : File × FS :=
  File.toggleCommentOnLine ((File.new oneInclude "t.cc").toggleCommentOnLine oneInclude).1
    ((File.new oneInclude "t.cc").toggleCommentOnLine oneInclude).2

/-! ## What one pass over a file computes -/

/-- The status that `spawn` returns when the file `p` holds `lines` and every
other path is as in `fs0`. -/
def seen (cfg : Config) (spawn : Spawn) (fs0 : FS) (p : Path) (lines : List Line) : Int :=
  spawn (spawnArgs cfg p) (putFileByLines fs0 p lines)

/-- The final text of line `l`, found with the decided lines `pre` before it and
the untouched lines `rest` after it: commented when it is tried and the status
`v` of the file with `l` commented is 0. -/
def decideLine (v : List Line → Int) (pre : List Line) (l : Line) (rest : List Line) : Line :=
  if isInclude l = true ∧ v (pre ++ (commentMark ++ l) :: rest) = 0 then commentMark ++ l else l

/-- The final texts of the lines `rest`, decided from left to right. -/
def outcome (v : List Line → Int) : List Line → List Line → List Line
  | _, [] => []
  | pre, l :: rest => decideLine v pre l rest :: outcome v (pre ++ [decideLine v pre l rest]) rest

/-- The calls of `spawn` made for the lines `rest`. -/
def callsOf (v : List Line → Int) (p : Path) : List Line → List Line → List Call
  | _, [] => []
  | pre, l :: rest =>
    if isInclude l = true then
      { fname := p, index := pre.length,
        disk := some (pre ++ (commentMark ++ l) :: rest).flatten,
        status := v (pre ++ (commentMark ++ l) :: rest) }
        :: callsOf v p (pre ++ [decideLine v pre l rest]) rest
    else callsOf v p (pre ++ [decideLine v pre l rest]) rest

/-- The call of `spawn` made for line `l`, if it is tried. -/
def callFor (v : List Line → Int) (p : Path) (pre : List Line) (l : Line) (rest : List Line) :
    List Call :=
  if isInclude l = true then
    [{ fname := p, index := pre.length,
       disk := some (pre ++ (commentMark ++ l) :: rest).flatten,
       status := v (pre ++ (commentMark ++ l) :: rest) }]
  else []

/-- Two file systems that differ at most at `p`. -/
def AgreeOff (p : Path) (fs fs0 : FS) : Prop := ∀ q, q ≠ p → fs q = fs0 q

/-! # Lemmas -/

theorem putFileByLines_same (fs : FS) (p : Path) (x : List Line) :
    putFileByLines fs p x p = some x.flatten := by
  simp [putFileByLines]

theorem putFileByLines_agree {p : Path} {fs fs0 : FS} (h : AgreeOff p fs fs0) (x : List Line) :
    putFileByLines fs p x = putFileByLines fs0 p x := by
  funext q
  by_cases hq : q = p
  · simp [putFileByLines, hq]
  · simp [putFileByLines, hq, h q hq]

theorem agreeOff_put {p : Path} {fs fs0 : FS} (h : AgreeOff p fs fs0) (x : List Line) :
    AgreeOff p (putFileByLines fs p x) fs0 := by
  intro q hq
  simp [putFileByLines, hq, h q hq]

theorem agreeOff_refl (p : Path) (fs : FS) : AgreeOff p fs fs := fun _ _ => rfl

theorem getD_append_cons (pre : List Line) (l : Line) (rest : List Line) (d : Line) :
    (pre ++ l :: rest).getD pre.length d = l := by
  induction pre with
  | nil => simp
  | cons a pre ih => simpa using ih

theorem set_append_cons (pre : List Line) (l x : Line) (rest : List Line) :
    (pre ++ l :: rest).set pre.length x = pre ++ x :: rest := by
  induction pre with
  | nil => simp
  | cons a pre ih => simp

theorem callFor_mem (v : List Line → Int) (p : Path) (pre : List Line) (l : Line)
    (rest : List Line) (h : isInclude l = true) :
    ({ fname := p, index := pre.length,
       disk := some (pre ++ (commentMark ++ l) :: rest).flatten,
       status := v (pre ++ (commentMark ++ l) :: rest) } : Call) ∈ callFor v p pre l rest := by
  simp only [callFor, h, if_true, List.mem_singleton]

theorem callsOf_cons (v : List Line → Int) (p : Path) (pre : List Line) (l : Line)
    (rest : List Line) :
    callsOf v p pre (l :: rest)
      = callFor v p pre l rest ++ callsOf v p (pre ++ [decideLine v pre l rest]) rest := by
  by_cases h : isInclude l = true <;> simp [callsOf, callFor, h]

/-- Disabling the line `l` under the cursor. -/
theorem toggle_disable (pre : List Line) (l : Line) (rest : List Line) (p : Path) (t : Line)
    (fs : FS) :
    File.toggleCommentOnLine
        { file := pre ++ l :: rest, line_ := pre.length, fname := p, tmp := t, ok := true } fs
      = ({ file := pre ++ (commentMark ++ l) :: rest, line_ := pre.length, fname := p,
           tmp := l, ok := false },
         putFileByLines fs p (pre ++ (commentMark ++ l) :: rest)) := by
  simp only [File.toggleCommentOnLine, File.swapTmp, File.writeOut, File.cur, if_true,
    getD_append_cons, set_append_cons]

/-- Toggling back a line that is under test. -/
theorem toggle_rollback (pre : List Line) (x : Line) (rest : List Line) (p : Path) (t : Line)
    (fs : FS) :
    File.toggleCommentOnLine
        { file := pre ++ x :: rest, line_ := pre.length, fname := p, tmp := t, ok := false } fs
      = ({ file := pre ++ t :: rest, line_ := pre.length, fname := p, tmp := x, ok := true },
         fs) := by
  simp only [File.toggleCommentOnLine, File.swapTmp, File.cur, Bool.false_eq_true, if_false,
    getD_append_cons, set_append_cons]

/-- The loop body from a clean state whose cursor stands on `l`. -/
theorem body_eq (cfg : Config) (spawn : Spawn) (fs0 : FS) (p : Path)
    (pre : List Line) (l : Line) (rest : List Line) (t : Line) (fs : FS) (log : List Call)
    (hfs : AgreeOff p fs fs0) :
    body cfg spawn
        { file := pre ++ l :: rest, line_ := pre.length, fname := p, tmp := t, ok := true } fs log
      = if isInclude l = true then
          (if seen cfg spawn fs0 p (pre ++ (commentMark ++ l) :: rest) = 0 then
            ({ file := pre ++ (commentMark ++ l) :: rest, line_ := pre.length, fname := p,
               tmp := l, ok := false },
             putFileByLines fs0 p (pre ++ (commentMark ++ l) :: rest),
             log ++ callFor (seen cfg spawn fs0 p) p pre l rest)
          else
            ({ file := pre ++ l :: rest, line_ := pre.length, fname := p,
               tmp := commentMark ++ l, ok := true },
             putFileByLines fs0 p (pre ++ (commentMark ++ l) :: rest),
             log ++ callFor (seen cfg spawn fs0 p) p pre l rest))
        else
          ({ file := pre ++ l :: rest, line_ := pre.length, fname := p, tmp := t, ok := true },
           fs, log) := by
  have hcur : File.cur
      { file := pre ++ l :: rest, line_ := pre.length, fname := p, tmp := t, ok := true } = l := by
    simp only [File.cur, getD_append_cons]
  unfold body
  rw [hcur]
  by_cases hinc : isInclude l = true
  · simp only [hinc, if_true, toggle_disable, toggle_rollback, putFileByLines_agree hfs,
      putFileByLines_same, callFor, seen, ne_eq, ite_not]
  · simp only [hinc, if_false, Bool.false_eq_true]

/-- One pass of the loop body followed by `next`, from a clean state whose
cursor stands on `l`. -/
theorem body_next (cfg : Config) (spawn : Spawn) (fs0 : FS) (p : Path)
    (pre : List Line) (l : Line) (rest : List Line) (f : File) (fs : FS) (log : List Call)
    (hfile : f.file = pre ++ l :: rest) (hline : f.line_ = pre.length) (hok : f.ok = true)
    (hname : f.fname = p) (hfs : AgreeOff p fs fs0) :
    (body cfg spawn f fs log).2.2 = log ++ callFor (seen cfg spawn fs0 p) p pre l rest ∧
      (body cfg spawn f fs log).1.next.file
        = (pre ++ [decideLine (seen cfg spawn fs0 p) pre l rest]) ++ rest ∧
      (body cfg spawn f fs log).1.next.line_
        = (pre ++ [decideLine (seen cfg spawn fs0 p) pre l rest]).length ∧
      (body cfg spawn f fs log).1.next.ok = true ∧
      (body cfg spawn f fs log).1.next.fname = p ∧
      AgreeOff p (body cfg spawn f fs log).2.1 fs0 := by
  obtain ⟨file, line, fname, tmp, ok⟩ := f
  simp only at hfile hline hok hname
  subst hfile hline hok hname
  rw [body_eq cfg spawn fs0 _ pre l rest tmp fs log hfs]
  by_cases hinc : isInclude l = true
  · by_cases hv : seen cfg spawn fs0 fname (pre ++ (commentMark ++ l) :: rest) = 0
    · simp only [hinc, hv, if_true, File.next, decideLine, and_self, List.append_assoc,
        List.singleton_append, List.length_append, List.length_singleton, true_and]
      exact agreeOff_put (agreeOff_refl _ fs0) _
    · simp only [hinc, hv, if_true, if_false, File.next, decideLine, and_false,
        List.append_assoc, List.singleton_append, List.length_append, List.length_singleton,
        true_and]
      exact agreeOff_put (agreeOff_refl _ fs0) _
  · simp only [hinc, if_false, File.next, decideLine, false_and, List.append_assoc,
      List.singleton_append, List.length_append, List.length_singleton, true_and,
      Bool.false_eq_true, callFor, List.append_nil]
    exact hfs

/-- The inner loop from a clean state with the cursor in front of `rest`:
the buffer ends as the decided lines, the cursor at the end, `ok` set, and the
calls of `spawn` are those of `callsOf`. -/
theorem lineLoop_spec (cfg : Config) (spawn : Spawn) (fs0 : FS) (p : Path) :
    ∀ (rest pre : List Line) (f : File) (fs : FS) (log : List Call),
      f.file = pre ++ rest → f.line_ = pre.length → f.ok = true → f.fname = p →
      AgreeOff p fs fs0 →
      (lineLoop cfg spawn rest.length f fs log).2.2
          = log ++ callsOf (seen cfg spawn fs0 p) p pre rest ∧
        (lineLoop cfg spawn rest.length f fs log).1.file
          = pre ++ outcome (seen cfg spawn fs0 p) pre rest ∧
        (lineLoop cfg spawn rest.length f fs log).1.line_
          = (lineLoop cfg spawn rest.length f fs log).1.file.length ∧
        (lineLoop cfg spawn rest.length f fs log).1.ok = true ∧
        (lineLoop cfg spawn rest.length f fs log).1.fname = p ∧
        AgreeOff p (lineLoop cfg spawn rest.length f fs log).2.1 fs0 := by
  intro rest
  induction rest with
  | nil =>
    intro pre f fs log hfile hline hok hname hfs
    simp [lineLoop, callsOf, outcome, hfile, hline, hok, hname]
    exact hfs
  | cons l rest ih =>
    intro pre f fs log hfile hline hok hname hfs
    have hne : f.line_ ≠ f.file.length := by simp [hfile, hline]
    obtain ⟨h1, h2, h3, h4, h5, h6⟩ :=
      body_next cfg spawn fs0 p pre l rest f fs log hfile hline hok hname hfs
    have := ih (pre ++ [decideLine (seen cfg spawn fs0 p) pre l rest])
      (body cfg spawn f fs log).1.next (body cfg spawn f fs log).2.1
      (body cfg spawn f fs log).2.2 h2 h3 h4 h5 h6
    simp only [List.length_cons, lineLoop, hne, if_true, ne_eq, not_false_eq_true]
    rw [callsOf_cons, outcome, ← List.append_assoc, ← h1]
    simpa using this

/-- The loop leaves by its guard, not for lack of fuel: for a freshly constructed
`File` the cursor ends on `end()` with `ok` set. -/
theorem lineLoop_reaches_end (cfg : Config) (spawn : Spawn) (fs : FS) (p : Path)
    (fs1 : FS) (log : List Call) :
    (processLines cfg spawn (File.new fs p) fs1 log).1.line_
        = (processLines cfg spawn (File.new fs p) fs1 log).1.file.length ∧
      (processLines cfg spawn (File.new fs p) fs1 log).1.ok = true := by
  have := lineLoop_spec cfg spawn fs1 p (getFileByLines fs p) [] (File.new fs p) fs1 log
    rfl rfl rfl rfl (agreeOff_refl p fs1)
  exact ⟨this.2.2.1, this.2.2.2.1⟩

/-- A run of `main` on one path: the file ends as the decided lines, every
other path is untouched, and the calls of `spawn` are those of `callsOf`. -/
theorem main_single (cfg : Config) (spawn : Spawn) (p : Path) (fs : FS) :
    main cfg spawn [p] fs
      = (putFileByLines fs p (outcome (seen cfg spawn fs p) [] (getFileByLines fs p)),
         callsOf (seen cfg spawn fs p) p [] (getFileByLines fs p)) := by
  obtain ⟨h1, h2, -, h4, h5, h6⟩ :=
    lineLoop_spec cfg spawn fs p (getFileByLines fs p) [] (File.new fs p) fs []
      rfl rfl rfl rfl (agreeOff_refl p fs)
  have hfuel : (File.new fs p).file.length - (File.new fs p).line_
      = (getFileByLines fs p).length := rfl
  simp only [main, pathLoop, processLines, hfuel, File.destroy, File.restore, h4, if_true,
    File.writeOut, h5, h2, h1, List.nil_append, putFileByLines_agree h6]

/-! ## Reading back what was written -/

theorem cstring_of_no_nul (x : List Char) (h : '\x00' ∉ x) : cstring x = x := by
  unfold cstring
  rw [List.takeWhile_eq_self_iff]
  intro c hc
  have : c ≠ '\x00' := fun e => h (e ▸ hc)
  simpa using this

/-- A stream without NUL is read without loss: the lines put one after the
other give the stream back. -/
theorem getlines_flatten (s : List Char) :
    ∀ buff : List Char, '\x00' ∉ buff → '\x00' ∉ s → (getlines buff s).flatten = buff ++ s := by
  induction s with
  | nil =>
    intro buff hb _
    cases buff with
    | nil => simp [getlines]
    | cons b bs => simp [getlines, cstring_of_no_nul _ hb]
  | cons c cs ih =>
    intro buff hb hs
    have hc : '\x00' ∉ buff ++ [c] := by
      simp only [List.mem_append, List.mem_singleton, not_or]
      exact ⟨hb, fun e => hs (e ▸ List.mem_cons_self _ _)⟩
    have hcs : '\x00' ∉ cs := fun h => hs (List.mem_cons_of_mem _ h)
    by_cases hn : c = '\n'
    · simp only [getlines, hn, if_true, List.flatten_cons]
      rw [ih [] (by simp) hcs, cstring_of_no_nul _ (hn ▸ hc)]
      simp
    · simp only [getlines, hn, if_false]
      rw [ih _ hc hcs]
      simp

/-! ## Verification that always fails, or always succeeds -/

theorem outcome_of_calls_fail (v : List Line → Int) (p : Path) :
    ∀ (rest pre : List Line), (∀ c ∈ callsOf v p pre rest, c.status ≠ 0) →
      outcome v pre rest = rest := by
  intro rest
  induction rest with
  | nil => intro pre _; rfl
  | cons l rest ih =>
    intro pre h
    rw [callsOf_cons] at h
    have hl : decideLine v pre l rest = l := by
      unfold decideLine
      by_cases hinc : isInclude l = true
      · have := h _ (List.mem_append_left _ (callFor_mem v p pre l rest hinc))
        simp only at this
        simp [this]
      · simp [hinc]
    rw [hl] at h
    rw [outcome, hl, ih _ (fun c hc => h c (List.mem_append_right _ hc))]

theorem exists_split (L : List Line) (i : Nat) (h : i < L.length) :
    ∃ pre l rest, L = pre ++ l :: rest ∧ pre.length = i := by
  refine ⟨L.take i, L[i], L.drop (i + 1), ?_, ?_⟩
  · rw [← List.drop_eq_getElem_cons h, List.take_append_drop]
  · simp only [List.length_take]
    omega

theorem sessionInv_of_reach (fs0 : FS) (path : Path) (content : List Char)
    (hfile : fs0 path = some content) (hnul : '\x00' ∉ content) :
    ∀ (f : File) (fs : FS), Reach fs0 path f fs → SessionInv path f fs := by
  intro f fs h
  induction h with
  | opened =>
    refine ⟨rfl, fun h => by simp [File.new] at h, fun _ => Or.inl ?_⟩
    simp only [File.new, getFileByLines, hfile]
    rw [getlines_flatten content [] (by simp) hnul]
    rfl
  | @disable f fs _ hok hlt ih =>
    obtain ⟨hname, -, -⟩ := ih
    obtain ⟨pre, l, rest, hsplit, hlen⟩ := exists_split f.file f.line_ hlt
    obtain ⟨file, line, fname, tmp, ok⟩ := f
    simp only at hname hok hsplit hlen
    subst hname hok hsplit hlen
    rw [toggle_disable]
    refine ⟨rfl, fun _ => ⟨by simp, ?_, ?_⟩, fun h => by simp at h⟩
    · simp only [File.cur, getD_append_cons]
    · simp only [putFileByLines_same]
  | @rollback f fs _ hok ih =>
    obtain ⟨hname, hinv, -⟩ := ih
    obtain ⟨hlt, hcur, hdisk⟩ := hinv hok
    obtain ⟨pre, l, rest, hsplit, hlen⟩ := exists_split f.file f.line_ hlt
    obtain ⟨file, line, fname, tmp, ok⟩ := f
    simp only at hname hok hsplit hlen hdisk
    subst hname hok hsplit hlen
    simp only [File.cur, getD_append_cons] at hcur
    rw [toggle_rollback]
    refine ⟨rfl, fun h => by simp at h, fun _ => Or.inr ⟨pre.length, le_refl _, by simp, ?_⟩⟩
    simp only [getD_append_cons, set_append_cons, ← hcur]
    exact hdisk
  | @next f fs _ hlt ih =>
    obtain ⟨hname, hfalse, htrue⟩ := ih
    refine ⟨hname, fun h => by simp [File.next] at h, fun _ => ?_⟩
    cases hok : f.ok with
    | false => exact Or.inl (hfalse hok).2.2
    | true =>
      rcases htrue hok with h | ⟨i, hi, hil, h⟩
      · exact Or.inl h
      · exact Or.inr ⟨i, by simp only [File.next]; omega, hil, h⟩

/-! ## A second run -/

theorem reach_rolledBack : Reach oneInclude "t.cc" rolledBack.1 rolledBack.2 :=
  Reach.rollback (Reach.disable Reach.opened (by decide) (by decide)) (by decide)

/-! # The claims -/

/-- C1, as stated, fails: on a file with a NUL byte in a line and a verification
that always fails, the file on disk after the run differs from the file before
it (the line is cut at the NUL when it is loaded). -/
theorem C1_counterexample :
    oneFile "t.cc" "#include <a.h>\nint x;\x00\n" "t.cc"
        = some "#include <a.h>\nint x;\x00\n".toList ∧
      (∀ c ∈ (main cfg0 alwaysFail ["t.cc"] (oneFile "t.cc" "#include <a.h>\nint x;\x00\n")).2,
        c.status ≠ 0) ∧
      (main cfg0 alwaysFail ["t.cc"] (oneFile "t.cc" "#include <a.h>\nint x;\x00\n")).1 "t.cc"
        = some "#include <a.h>\nint x;".toList ∧
      (main cfg0 alwaysFail ["t.cc"] (oneFile "t.cc" "#include <a.h>\nint x;\x00\n")).1 "t.cc"
        ≠ oneFile "t.cc" "#include <a.h>\nint x;\x00\n" "t.cc" := by
  decide

/-- C1 (amended): for every readable file without a NUL byte given as the single
target path, if every verification run of the session yields a non-zero status,
then after the loop and the teardown the content of the file on disk is what
it was before the run (and so is every other path). -/
theorem C1_unchanged_when_verification_fails (cfg : Config) (spawn : Spawn) (fs : FS)
    (path : Path) (content : List Char) (hfile : fs path = some content)
    (hnul : '\x00' ∉ content)
    (hfail : ∀ c ∈ (main cfg spawn [path] fs).2, c.status ≠ 0) :
    (main cfg spawn [path] fs).1 path = some content ∧ (main cfg spawn [path] fs).1 = fs := by
  rw [main_single] at hfail ⊢
  simp only at hfail ⊢
  rw [outcome_of_calls_fail _ _ _ _ hfail]
  have hflat : (getFileByLines fs path).flatten = content := by
    simp only [getFileByLines, hfile]
    rw [getlines_flatten content [] (by simp) hnul]
    rfl
  refine ⟨by rw [putFileByLines_same, hflat], ?_⟩
  funext q
  by_cases hq : q = path
  · rw [hq, putFileByLines_same, hflat, hfile]
  · simp only [putFileByLines, hq, if_false]

/-- An instance of C1 (amended): the scenario file with a verification that
always fails. -/
theorem C1_unchanged_when_verification_fails_witness :
    scenarioFS "t.cc" = some "#include <a.h>\nint x;\n#include <b.h>\n".toList ∧
      '\x00' ∉ "#include <a.h>\nint x;\n#include <b.h>\n".toList ∧
      (∀ c ∈ (main cfg0 alwaysFail ["t.cc"] scenarioFS).2, c.status ≠ 0) ∧
      (main cfg0 alwaysFail ["t.cc"] scenarioFS).1 "t.cc"
        = some "#include <a.h>\nint x;\n#include <b.h>\n".toList :=
  ⟨by decide, by decide, by decide,
    (C1_unchanged_when_verification_fails cfg0 alwaysFail scenarioFS "t.cc"
      "#include <a.h>\nint x;\n#include <b.h>\n".toList (by decide) (by decide)
      (by decide)).1⟩

/-- C5 (the code departs from the claim): a line that holds only `#` and a
newline, and a last line `#inc` without newline, are tried as if they were
`#include` lines, although the text after `#` does not begin with `include`. -/
theorem C5_short_lines_are_tried :
    isInclude "#\n".toList = true ∧ isInclude "#inc".toList = true ∧
      isInclude "  #  \n".toList = true ∧ isInclude "#include <a.h>\n".toList = true ∧
      isInclude "#in\n".toList = false := by
  decide

/-- C7 (the code departs from the claim): for a path that holds no file, no
verification is run, but the teardown creates an empty file at the path. -/
theorem C7_missing_file_is_created :
    (fun _ => none : FS) "missing.cc" = none ∧
      getFileByLines (fun _ => none) "missing.cc" = [] ∧
      (main cfg0 alwaysPass ["missing.cc"] (fun _ => none)).2 = [] ∧
      (main cfg0 alwaysPass ["missing.cc"] (fun _ => none)).1 "missing.cc" = some [] := by
  decide

/-- C8 (the code departs from the claim): with the same path named twice and a
verification that always fails, one run leaves the `#include` line commented
out, while two runs one after the other leave the file as it was: the second
session loads the file before the first session has written its final state. -/
theorem C8_same_path_twice :
    (main cfg0 alwaysFail ["t.cc", "t.cc"] (oneFile "t.cc" "#include <a.h>\n")).1 "t.cc"
        = some "// #include <a.h>\n".toList ∧
      (main cfg0 alwaysFail ["t.cc"]
          (main cfg0 alwaysFail ["t.cc"] (oneFile "t.cc" "#include <a.h>\n")).1).1 "t.cc"
        = some "#include <a.h>\n".toList := by
  decide

/-- C9, as stated, fails: the run of the scenario does not end with the third
line restored. -/
theorem C9_counterexample :
    (main cfg0 (noUncommented "a.h" "t.cc") ["t.cc"] scenarioFS).1 "t.cc"
      ≠ some "// #include <a.h>\nint x;\n#include <b.h>\n".toList := by
  decide

/-- C9 (amended): in the scenario both verification runs return 0 (with line 1
commented out no uncommented `a.h` is left), so the run ends with lines 1 and 3
commented out and line 2 untouched. -/
theorem C9_scenario_result :
    (main cfg0 (noUncommented "a.h" "t.cc") ["t.cc"] scenarioFS).1 "t.cc"
        = some "// #include <a.h>\nint x;\n// #include <b.h>\n".toList ∧
      ((main cfg0 (noUncommented "a.h" "t.cc") ["t.cc"] scenarioFS).2.map
        (fun c => (c.index, c.status))) = [(0, 0), (2, 0)] := by
  decide

/-- C3: from a state with `ok` set and the cursor on a line, disabling the line
leaves the commented line in memory and on disk with `ok` clear, and the
teardown then writes the buffer as it was before the disable (that line with
its text from before, every other line as it was); a teardown from a state with
`ok` set writes the buffer unchanged. -/
theorem C3_teardown_restores (f : File) (fs : FS) (hok : f.ok = true)
    (hline : f.line_ < f.file.length) :
    (f.toggleCommentOnLine fs).1.ok = false ∧
      (f.toggleCommentOnLine fs).1.file = f.file.set f.line_ (commentMark ++ f.cur) ∧
      (f.toggleCommentOnLine fs).2 f.fname
        = some (f.file.set f.line_ (commentMark ++ f.cur)).flatten ∧
      (f.toggleCommentOnLine fs).1.restore.file = f.file ∧
      File.destroy (f.toggleCommentOnLine fs).1 (f.toggleCommentOnLine fs).2 f.fname
        = some f.file.flatten ∧
      (∀ (g : File) (gs : FS), g.ok = true →
        g.restore.file = g.file ∧ File.destroy g gs g.fname = some g.file.flatten) := by
  obtain ⟨pre, l, rest, hsplit, hlen⟩ := exists_split f.file f.line_ hline
  obtain ⟨file, line, fname, tmp, ok⟩ := f
  simp only at hok hsplit hlen
  subst hok hsplit hlen
  rw [toggle_disable]
  refine ⟨rfl, ?_, ?_, ?_, ?_, ?_⟩
  · simp only [File.cur, getD_append_cons, set_append_cons]
  · simp only [File.cur, getD_append_cons, set_append_cons, putFileByLines_same]
  · simp only [File.restore, File.swapTmp, Bool.false_eq_true, if_false, set_append_cons]
  · simp only [File.destroy, File.restore, File.swapTmp, File.writeOut, Bool.false_eq_true,
      if_false, set_append_cons, putFileByLines_same]
  · intro g gs hg
    simp only [File.destroy, File.restore, hg, if_true, File.writeOut, putFileByLines_same,
      and_self]

/-- An instance of C3: the first line of the scenario file is disabled, then the
session is torn down. -/
theorem C3_teardown_restores_witness :
    (File.new scenarioFS "t.cc").ok = true ∧
      (File.new scenarioFS "t.cc").line_ < (File.new scenarioFS "t.cc").file.length ∧
      File.destroy ((File.new scenarioFS "t.cc").toggleCommentOnLine scenarioFS).1
          ((File.new scenarioFS "t.cc").toggleCommentOnLine scenarioFS).2 "t.cc"
        = some "#include <a.h>\nint x;\n#include <b.h>\n".toList :=
  ⟨by decide, by decide,
    (C3_teardown_restores (File.new scenarioFS "t.cc") scenarioFS (by decide)
      (by decide)).2.2.2.2.1.trans (by decide)⟩

/-- C10, as stated, fails: after a disable and its rollback `ok` is set, the
buffer holds the restored line, and the file on disk still holds the commented
line (the rollback writes nothing). -/
theorem C10_counterexample :
    ¬ (∀ (fs0 : FS) (path : Path) (f : File) (fs : FS), Reach fs0 path f fs →
        f.ok = true → fs f.fname = some f.file.flatten) := by
  intro h
  exact absurd (h _ _ _ _ reach_rolledBack (by decide)) (by decide)

/-- C10 (amended): for a session freshly opened on a readable file without a NUL
byte, in every state reached by the operations of the driver: when `ok` is
clear the file on disk equals the buffer; when `ok` is set the file on disk
equals the buffer except that at most one line, at or before the cursor, may
still stand on disk in its commented form (a rollback restores the line in the
buffer only; the next disable or the teardown writes it). -/
theorem C10_disk_matches_up_to_one_line (fs0 : FS) (path : Path) (content : List Char)
    (hfile : fs0 path = some content) (hnul : '\x00' ∉ content)
    (f : File) (fs : FS) (hreach : Reach fs0 path f fs) :
    f.fname = path ∧
      (f.ok = false → fs path = some f.file.flatten) ∧
      (f.ok = true → fs path = some f.file.flatten ∨
        ∃ i, i ≤ f.line_ ∧ i < f.file.length ∧
          fs path = some (f.file.set i (commentMark ++ f.file.getD i [])).flatten) := by
  obtain ⟨h1, h2, h3⟩ := sessionInv_of_reach fs0 path content hfile hnul f fs hreach
  exact ⟨h1, fun h => (h2 h).2.2, h3⟩

/-- An instance of C10 (amended): the state after a disable and its rollback. -/
theorem C10_disk_matches_up_to_one_line_witness :
    oneInclude "t.cc" = some "#include <a.h>\n".toList ∧
      '\x00' ∉ "#include <a.h>\n".toList ∧
      Reach oneInclude "t.cc" rolledBack.1 rolledBack.2 ∧
      (rolledBack.1.fname = "t.cc" ∧
        (rolledBack.1.ok = false → rolledBack.2 "t.cc" = some rolledBack.1.file.flatten) ∧
        (rolledBack.1.ok = true → rolledBack.2 "t.cc" = some rolledBack.1.file.flatten ∨
          ∃ i, i ≤ rolledBack.1.line_ ∧ i < rolledBack.1.file.length ∧
            rolledBack.2 "t.cc" = some (rolledBack.1.file.set i
              (commentMark ++ rolledBack.1.file.getD i [])).flatten)) :=
  ⟨by decide, by decide, reach_rolledBack,
    C10_disk_matches_up_to_one_line oneInclude "t.cc" "#include <a.h>\n".toList
      (by decide) (by decide) rolledBack.1 rolledBack.2 reach_rolledBack⟩

end CppIncludeClean
